import Mathlib

/-!
Verification of the trading safety engine of `bot-trace-binance`.

The Python sources under `src/core` and `src/strategy` are shallowly embedded
here.  `decimal.Decimal` money/quantity arithmetic is modelled by exact
rational arithmetic (`ℚ`); the one `float` round-trip inside
`floor_to_step` (`math.floor(float(value / step_size))`) is modelled as the
exact mathematical floor of the rational quotient, which is the function's
documented semantics.  Asynchronous gateway calls are modelled by explicit
outcome oracles, and the orders sent to the exchange are collected in traces
so that theorems can speak about what was actually submitted.
-/

namespace BotTrace

/-! ## core/calculator.py -/

/-- Error raised by the calculator module (`CalculatorError` in
`core/calculator.py`); the only failure the embedded fragment can produce is
an invalid (non-positive) step or tick. -/
inductive CalcError where
  | invalidStep : CalcError
  deriving Repr, DecidableEq

/-- `floor_to_step` (core/calculator.py, lines 140-161): raises
`CalculatorError` when `step_size ≤ 0`, otherwise returns
`floor(value / step_size) * step_size`. -/
def floor_to_step (value step_size : ℚ) : Except CalcError ℚ :=
  if step_size ≤ 0 then .error .invalidStep
  else .ok ((⌊value / step_size⌋ : ℚ) * step_size)

/-- `floor_price_to_tick` (core/calculator.py, lines 164-179): same algorithm
as `floor_to_step`, applied to prices. -/
def floor_price_to_tick (price tick_size : ℚ) : Except CalcError ℚ :=
  if tick_size ≤ 0 then .error .invalidStep
  else .ok ((⌊price / tick_size⌋ : ℚ) * tick_size)

/-- Total version of tick flooring, used by components that only ever call it
with a positive tick size (it agrees with `floor_price_to_tick` there). -/
def floorTick (price tick_size : ℚ) : ℚ :=
  (⌊price / tick_size⌋ : ℚ) * tick_size

/-- Result of calling `floor_to_step` inside the `try/except Exception:
return 0` block of `calculate_position_size`: a raised `CalculatorError`
becomes a 0 result. -/
def floor_to_step_or_zero (value step_size : ℚ) : ℚ :=
  match floor_to_step value step_size with
  | .error _ => 0
  | .ok q => q

/-- `calculate_position_size` (core/calculator.py, lines 182-278).  The whole
Python body is wrapped in `try/except Exception: return 0`, so the embedding
is total: the `CalculatorError` that `floor_to_step` raises on a bad step
becomes a 0 result.  The `leverage` parameter is an `int` in the source and
is not validated. -/
def calculate_position_size (balance risk_percent entry_price stoploss_price step_size : ℚ)
    (leverage : ℤ) (max_position_percent : ℚ) : ℚ :=
  if balance ≤ 0 then 0
  else if entry_price ≤ 0 ∨ stoploss_price ≤ 0 then 0
  else if risk_percent ≤ 0 then 0
  else
    let distance := |entry_price - stoploss_price|
    if distance = 0 then 0
    else
      let risk_amount := balance * (risk_percent / 100)
      let raw_qty_risk := risk_amount * (leverage : ℚ) / distance
      let max_margin := balance * (max_position_percent / 100)
      let max_notional := max_margin * (leverage : ℚ)
      let max_qty_position := max_notional / entry_price
      let raw_qty := if raw_qty_risk > max_qty_position then max_qty_position else raw_qty_risk
      floor_to_step_or_zero raw_qty step_size

/-- `validate_min_notional` (core/calculator.py, lines 281-304). -/
def validate_min_notional (quantity price min_notional : ℚ) : Bool :=
  decide (min_notional ≤ quantity * price)

/-- `calculate_pnl` (core/calculator.py, lines 395-416). -/
def calculate_pnl (entry_price exit_price quantity : ℚ) (is_long : Bool) : ℚ :=
  if is_long then (exit_price - entry_price) * quantity
  else (entry_price - exit_price) * quantity

/-! ### Claims C6 and C5 -/

/-- C6: for every value `v` and step `s > 0`, `floor_to_step` succeeds with a
result that is at most `v` and an exact integer multiple of `s`; for
`s ≤ 0` it fails with `CalculatorError` (invalid step) instead of returning
a value. -/
theorem floor_to_step_correct (v s : ℚ) :
    (0 < s → ∃ r : ℚ, floor_to_step v s = .ok r ∧ r ≤ v ∧ ∃ k : ℤ, r = (k : ℚ) * s) ∧
    (s ≤ 0 → floor_to_step v s = .error .invalidStep) := by
  constructor
  · intro hs
    refine ⟨(⌊v / s⌋ : ℚ) * s, ?_, ?_, ⟨⌊v / s⌋, rfl⟩⟩
    · simp [floor_to_step, not_le.mpr hs]
    · have h1 : ((⌊v / s⌋ : ℚ)) ≤ v / s := Int.floor_le _
      calc (⌊v / s⌋ : ℚ) * s ≤ (v / s) * s := by
            exact mul_le_mul_of_nonneg_right h1 (le_of_lt hs)
        _ = v := div_mul_cancel₀ v (ne_of_gt hs)
  · intro hs
    simp [floor_to_step, hs]

/-- Witness for C6 at `v = 29/100`, `s = 1/10` (result `2/10`). -/
theorem floor_to_step_correct_witness :
    ∃ r : ℚ, floor_to_step (29/100) (1/10) = .ok r ∧ r ≤ 29/100 ∧
      ∃ k : ℤ, r = (k : ℚ) * (1/10) :=
  (floor_to_step_correct (29/100) (1/10)).1 (by norm_num)

/-- On a non-negative input `floor_to_step_or_zero` returns a non-negative
value (0 on an invalid step, a non-negative multiple of the step
otherwise). -/
theorem floor_to_step_or_zero_nonneg (v s : ℚ) (hv : 0 ≤ v) :
    0 ≤ floor_to_step_or_zero v s := by
  unfold floor_to_step_or_zero floor_to_step
  split_ifs with hs
  · exact le_rfl
  · push_neg at hs
    show (0:ℚ) ≤ (⌊v / s⌋ : ℚ) * s
    have h0 : (0:ℤ) ≤ ⌊v / s⌋ := Int.floor_nonneg.mpr (div_nonneg hv hs.le)
    exact mul_nonneg (by exact_mod_cast h0) hs.le

/-- On a positive step, `floor_to_step` succeeds and
`floor_to_step_or_zero` returns its value. -/
theorem floor_to_step_ok_or_zero (v s : ℚ) (hs : 0 < s) :
    floor_to_step v s = .ok (floor_to_step_or_zero v s) := by
  unfold floor_to_step_or_zero floor_to_step
  rw [if_neg (not_le.mpr hs)]

/-- C5 counterexample: the claim says `calculate_position_size` never returns
a negative quantity for any input, but the code never validates `leverage`;
with `leverage = -1` (and otherwise sensible inputs) it returns `-1/10 < 0`. -/
theorem calculate_position_size_negative_output :
    calculate_position_size 10000 1 50000 49000 (1/1000) (-1) 10 < 0 := by
  norm_num [calculate_position_size, floor_to_step_or_zero, floor_to_step]

/-- C5 amended: `calculate_position_size` is total (the Python `try/except`
returns 0 on any internal error) and, provided `leverage ≥ 0`, never returns
a negative quantity; it returns 0 on every degenerate input listed by the
spec; on valid inputs with a positive step it returns exactly
`floorToStep(min(rawQty, capQty), step)`; and the spec's end-to-end example
evaluates to `0.200`. -/
theorem calculate_position_size_correct (b r e st sp : ℚ) (lev : ℤ) (mp : ℚ) :
    (0 ≤ lev → 0 ≤ mp → 0 ≤ calculate_position_size b r e st sp lev mp) ∧
    (b ≤ 0 ∨ e ≤ 0 ∨ st ≤ 0 ∨ r ≤ 0 ∨ e = st →
      calculate_position_size b r e st sp lev mp = 0) ∧
    (0 < b → 0 < e → 0 < st → 0 < r → e ≠ st → 0 < sp →
      floor_to_step (min (b * (r / 100) * (lev : ℚ) / |e - st|)
          (b * (mp / 100) * (lev : ℚ) / e)) sp
        = .ok (calculate_position_size b r e st sp lev mp)) ∧
    calculate_position_size 10000 1 50000 49000 (1/1000) 10 10 = 1/5 := by
  refine ⟨?_, ?_, ?_,
    by norm_num [calculate_position_size, floor_to_step_or_zero, floor_to_step]⟩
  · intro hlev hmp
    have hlev' : (0:ℚ) ≤ (lev : ℚ) := by exact_mod_cast hlev
    simp only [calculate_position_size]
    split_ifs with h1 h2 h3 h4 h5
    · exact le_rfl
    · exact le_rfl
    · exact le_rfl
    · exact le_rfl
    · push_neg at h1 h2
      refine floor_to_step_or_zero_nonneg _ _ ?_
      exact div_nonneg
        (mul_nonneg (mul_nonneg h1.le (div_nonneg hmp (by norm_num))) hlev') h2.1.le
    · push_neg at h1 h3
      refine floor_to_step_or_zero_nonneg _ _ ?_
      exact div_nonneg
        (mul_nonneg (mul_nonneg h1.le (div_nonneg h3.le (by norm_num))) hlev') (abs_nonneg _)
  · intro hdeg
    simp only [calculate_position_size]
    split_ifs with h1 h2 h3 h4 h5 <;>
      first
        | rfl
        | (exfalso
           push_neg at h1 h2 h3
           rcases hdeg with h | h | h | h | h
           · exact absurd h (not_le.mpr h1)
           · exact absurd h (not_le.mpr h2.1)
           · exact absurd h (not_le.mpr h2.2)
           · exact absurd h (not_le.mpr h3)
           · exact h4 (by rw [h, sub_self, abs_zero]))
  · intro hb he hst hr hne hsp
    simp only [calculate_position_size]
    rw [if_neg (not_le.mpr hb), if_neg (by push_neg; exact ⟨he, hst⟩),
      if_neg (not_le.mpr hr), if_neg (by simpa [sub_eq_zero] using hne),
      floor_to_step_ok_or_zero _ _ hsp]
    congr 1
    rcases le_or_lt (b * (r / 100) * (lev : ℚ) / |e - st|)
        (b * (mp / 100) * (lev : ℚ) / e) with hle | hlt
    · rw [min_eq_left hle, if_neg (not_lt.mpr hle)]
    · rw [min_eq_right (le_of_lt hlt), if_pos hlt]

/-- Witness for C5's amended theorem at the spec's end-to-end example. -/
theorem calculate_position_size_correct_witness :
    0 ≤ calculate_position_size 10000 1 50000 49000 (1/1000) 10 10 :=
  (calculate_position_size_correct 10000 1 50000 49000 (1/1000) 10 10).1
    (by norm_num) (by norm_num)

/-! ## core/risk_manager.py -/

/-- Module-level threshold `HIGH_VOLATILITY_THRESHOLD` (default 3.0). -/
def HIGH_VOLATILITY_THRESHOLD : ℚ := 3

/-- Module-level threshold `LOW_VOLATILITY_THRESHOLD` (default 1.0). -/
def LOW_VOLATILITY_THRESHOLD : ℚ := 1

/-- Module-level threshold `GOOD_WIN_RATE` (default 60.0). -/
def GOOD_WIN_RATE : ℚ := 60

/-- Module-level threshold `BAD_WIN_RATE` (default 40.0). -/
def BAD_WIN_RATE : ℚ := 40

/-- Module-level threshold `MAX_DRAWDOWN_PERCENT` (default 20.0). -/
def MAX_DRAWDOWN_PERCENT : ℚ := 20

/-- Constructor configuration of `DynamicRiskManager`
(core/risk_manager.py); env defaults are base 10, min 3, max 20. -/
structure RiskConfig where
  base_leverage : ℤ
  min_leverage : ℤ
  max_leverage : ℤ
  enabled : Bool
  deriving Repr, DecidableEq

/-- The `RiskMetrics` dataclass (core/risk_manager.py); `float` fields are
modelled as exact rationals. -/
structure RiskMetrics where
  volatility : ℚ
  win_rate : ℚ
  drawdown : ℚ
  trend_strength : ℚ
  consecutive_losses : ℕ
  total_trades : ℕ
  winning_trades : ℕ
  deriving Repr, DecidableEq

/-- Leverage after step 1 (volatility adjustment) of
`calculate_optimal_leverage` (core/risk_manager.py, lines 198-203). -/
def lev_after_volatility (cfg : RiskConfig) (m : RiskMetrics) : ℤ :=
  if HIGH_VOLATILITY_THRESHOLD < m.volatility then
    max (cfg.base_leverage - 3) cfg.min_leverage
  else if m.volatility < LOW_VOLATILITY_THRESHOLD then
    min (cfg.base_leverage + 2) cfg.max_leverage
  else cfg.base_leverage

/-- Leverage after step 2 (win-rate adjustment, ≥10-trade minimum sample;
lines 205-211). -/
def lev_after_win_rate (cfg : RiskConfig) (m : RiskMetrics) : ℤ :=
  let l := lev_after_volatility cfg m
  if 10 ≤ m.total_trades then
    if m.win_rate < BAD_WIN_RATE then max (l - 2) cfg.min_leverage
    else if GOOD_WIN_RATE < m.win_rate then min (l + 1) cfg.max_leverage
    else l
  else l

/-- Leverage after step 3 (drawdown protection; lines 213-219). -/
def lev_after_drawdown (cfg : RiskConfig) (m : RiskMetrics) : ℤ :=
  let l := lev_after_win_rate cfg m
  if MAX_DRAWDOWN_PERCENT < m.drawdown then cfg.min_leverage
  else if MAX_DRAWDOWN_PERCENT / 2 < m.drawdown then max (l - 2) cfg.min_leverage
  else l

/-- Leverage after step 4 (consecutive-losses protection; lines 221-224):
the code subtracts 2 and floors at the minimum, it does not clamp hard to
the minimum. -/
def lev_after_losses (cfg : RiskConfig) (m : RiskMetrics) : ℤ :=
  let l := lev_after_drawdown cfg m
  if 3 ≤ m.consecutive_losses then max (l - 2) cfg.min_leverage else l

/-- `calculate_optimal_leverage` (core/risk_manager.py, lines 177-226):
returns the base leverage untouched when dynamic risk is disabled, otherwise
the staged adjustments clamped to `[min_leverage, max_leverage]`. -/
def calculate_optimal_leverage (cfg : RiskConfig) (m : RiskMetrics) : ℤ :=
  if cfg.enabled then
    max cfg.min_leverage (min (lev_after_losses cfg m) cfg.max_leverage)
  else cfg.base_leverage

/-- `should_stop_trading` (core/risk_manager.py, lines 266-284); the
human-readable reason string is presentation-only and not modelled. -/
def should_stop_trading (m : RiskMetrics) : Bool :=
  if MAX_DRAWDOWN_PERCENT < m.drawdown then true
  else if 5 ≤ m.consecutive_losses then true
  else false

/-- A single `TradeHistory` record; only the fields the claims use (`pnl`
and the derived `win` flag) are modelled. -/
structure TradeRec where
  pnl : ℚ
  win : Bool
  deriving Repr, DecidableEq

/-- Trade classification in `add_trade` (core/risk_manager.py, line 112):
`win = pnl > 0`. -/
def mk_trade (pnl : ℚ) : TradeRec := ⟨pnl, decide (0 < pnl)⟩

/-- Mutable state of `DynamicRiskManager` relevant to the ledger:
`trade_history` and `consecutive_losses`. -/
structure RiskState where
  history : List TradeRec
  consecutive_losses : ℕ
  deriving Repr, DecidableEq

/-- `add_trade` (core/risk_manager.py, lines 94-134): appends the record,
resets the consecutive-loss counter on a win and increments it otherwise,
and caps the ledger at the last 100 entries. -/
def add_trade (s : RiskState) (pnl : ℚ) : RiskState :=
  let h := s.history ++ [mk_trade pnl]
  { history := if 100 < h.length then h.drop 1 else h
    consecutive_losses := if (mk_trade pnl).win then 0 else s.consecutive_losses + 1 }

/-! ### Claims C9 and C10 -/

/-- C9 counterexample: with the default enabled configuration
(base 10, min 3, max 20) and metrics showing 3 consecutive losses but benign
volatility and drawdown, the code returns leverage 8, not the minimum 3 —
consecutive losses ≥ 3 do not clamp hard to `min_leverage`. -/
theorem calculate_optimal_leverage_not_min_on_losses :
    calculate_optimal_leverage ⟨10, 3, 20, true⟩ ⟨2, 0, 0, 0, 3, 0, 0⟩ = 8 ∧
    (⟨10, 3, 20, true⟩ : RiskConfig).min_leverage ≠ 8 := by
  constructor
  · norm_num [calculate_optimal_leverage, lev_after_losses, lev_after_drawdown,
      lev_after_win_rate, lev_after_volatility, HIGH_VOLATILITY_THRESHOLD,
      LOW_VOLATILITY_THRESHOLD, BAD_WIN_RATE, GOOD_WIN_RATE, MAX_DRAWDOWN_PERCENT]
  · decide

/-- C9 amended: when dynamic risk is enabled and `min_leverage ≤
max_leverage`, the result always lies in `[min_leverage, max_leverage]`; a
drawdown above `MAX_DRAWDOWN_PERCENT` forces exactly `min_leverage`; and
3 or more consecutive losses reduce the pre-penalty leverage by 2 floored at
`min_leverage` (so the result never exceeds the clamp of the pre-penalty
value, and equals `min_leverage` whenever the penalty reaches the floor) —
they do not clamp hard to the minimum. -/
theorem calculate_optimal_leverage_correct (cfg : RiskConfig) (m : RiskMetrics)
    (hen : cfg.enabled = true) (hmm : cfg.min_leverage ≤ cfg.max_leverage) :
    cfg.min_leverage ≤ calculate_optimal_leverage cfg m ∧
    calculate_optimal_leverage cfg m ≤ cfg.max_leverage ∧
    (MAX_DRAWDOWN_PERCENT < m.drawdown →
      calculate_optimal_leverage cfg m = cfg.min_leverage) ∧
    (3 ≤ m.consecutive_losses →
      calculate_optimal_leverage cfg m ≤
        max cfg.min_leverage (min (lev_after_drawdown cfg m) cfg.max_leverage) ∧
      (lev_after_drawdown cfg m - 2 ≤ cfg.min_leverage →
        calculate_optimal_leverage cfg m = cfg.min_leverage)) := by
  simp only [calculate_optimal_leverage, hen, if_true]
  refine ⟨le_max_left _ _, ?_, ?_, ?_⟩
  · exact max_le hmm (min_le_right _ _)
  · intro hdd
    have h3 : lev_after_drawdown cfg m = cfg.min_leverage := by
      simp only [lev_after_drawdown, hdd, if_pos]
    simp only [lev_after_losses, h3]
    split_ifs <;> omega
  · intro hcl
    have h4 : lev_after_losses cfg m =
        max (lev_after_drawdown cfg m - 2) cfg.min_leverage := by
      simp only [lev_after_losses, hcl, if_pos]
    rw [h4]
    omega

/-- Witness for C9's amended theorem at the default configuration. -/
theorem calculate_optimal_leverage_correct_witness :
    (3:ℤ) ≤ calculate_optimal_leverage ⟨10, 3, 20, true⟩ ⟨2, 50, 0, 0, 0, 0, 0⟩ :=
  (calculate_optimal_leverage_correct ⟨10, 3, 20, true⟩ ⟨2, 50, 0, 0, 0, 0, 0⟩
    rfl (by norm_num)).1

/-- C10: a break-even trade (`pnl = 0`, and any `pnl ≤ 0`) is classified as
a loss (`win = false`) and increments the consecutive-loss counter; only
`pnl > 0` resets the streak; `should_stop_trading` fires at 5 or more
consecutive losses; and five consecutive break-even trades from a fresh
ledger drive the counter to 5 and make `should_stop_trading` return true. -/
theorem add_trade_breakeven_counts_as_loss :
    (∀ (s : RiskState) (pnl : ℚ), pnl ≤ 0 →
      (mk_trade pnl).win = false ∧
      (add_trade s pnl).consecutive_losses = s.consecutive_losses + 1) ∧
    (∀ (s : RiskState) (pnl : ℚ), 0 < pnl →
      (add_trade s pnl).consecutive_losses = 0) ∧
    (∀ m : RiskMetrics, 5 ≤ m.consecutive_losses → should_stop_trading m = true) ∧
    ((fun st => add_trade st 0)^[5] ⟨[], 0⟩).consecutive_losses = 5 ∧
    should_stop_trading
      ⟨2, 0, 0, 0, ((fun st => add_trade st 0)^[5] ⟨[], 0⟩).consecutive_losses, 5, 0⟩
      = true := by
  refine ⟨?_, ?_, ?_, by decide, by decide⟩
  · intro s pnl hpnl
    have hw : (mk_trade pnl).win = false := by
      simp [mk_trade, not_lt.mpr hpnl]
    exact ⟨hw, by simp [add_trade, hw]⟩
  · intro s pnl hpnl
    have hw : (mk_trade pnl).win = true := by simp [mk_trade, hpnl]
    simp [add_trade, hw]
  · intro m hm
    unfold should_stop_trading
    split_ifs <;> rfl

/-- Witness for C10 at a fresh ledger and `pnl = 0`. -/
theorem add_trade_breakeven_counts_as_loss_witness :
    (mk_trade 0).win = false ∧
    (add_trade ⟨[], 0⟩ 0).consecutive_losses = 0 + 1 :=
  add_trade_breakeven_counts_as_loss.1 ⟨[], 0⟩ 0 (by norm_num)

/-! ## core/exchange.py — retry wrapper and client order ids -/

/-- Module-level `MAX_RETRIES` (default 5). -/
def MAX_RETRIES : ℕ := 5

/-- Module-level `RETRY_BASE_DELAY` (1.0 s). -/
def RETRY_BASE_DELAY : ℚ := 1

/-- Module-level `RETRY_MAX_DELAY` (30.0 s). -/
def RETRY_MAX_DELAY : ℚ := 30

/-- Backoff delay slept after the failed attempt numbered `attempt`
(0-based): `min(RETRY_BASE_DELAY * 2^attempt, RETRY_MAX_DELAY)`
(core/exchange.py, line 186). -/
def backoff_delay (attempt : ℕ) : ℚ :=
  min (RETRY_BASE_DELAY * 2 ^ attempt) RETRY_MAX_DELAY

/-- Outcome of one underlying ccxt call, as classified by the `except`
clauses of `_retry_async`: success, a network-class failure
(`ccxt.NetworkError` / `ccxt.ExchangeNotAvailable`), or a business-rule
rejection (`ccxt.ExchangeError`). -/
inductive CallOutcome (ε α : Type) where
  | success (v : α)
  | networkError (e : ε)
  | exchangeErr (e : ε)
  deriving Repr, DecidableEq

/-- Result of `_retry_async`: the operation's value, an `ExchangeError`
raised immediately on a business-rule rejection, or the terminal
`ExchangeError` naming the last network-class cause once all attempts
failed. -/
inductive RetryOutcome (ε α : Type) where
  | ok (v : α)
  | nonRetryable (e : ε)
  | retriesExhausted (last : Option ε)
  deriving Repr, DecidableEq

/-- Trace of one `_retry_async` run: the outcome, the `params` value passed
to each issued call (in order), and the backoff delays slept between
attempts. -/
structure RetryTrace (P ε α : Type) where
  outcome : RetryOutcome ε α
  calls : List P
  delays : List ℚ
  deriving Repr, DecidableEq

/-- The retry loop of `_retry_async` (core/exchange.py, lines 165-193):
`fuel` is the number of loop iterations left, `attempt` the current
0-based attempt index, `last` the last recorded network exception, and
`cs`/`ds` accumulate the issued calls and slept delays.  The same `params`
value (the kwargs dict built once before the loop) is passed to every
attempt. -/
def retryGo {P ε α : Type} (op : ℕ → P → CallOutcome ε α) (params : P) :
    ℕ → ℕ → Option ε → List P → List ℚ → RetryTrace P ε α
  | _, 0, last, cs, ds => ⟨.retriesExhausted last, cs, ds⟩
  | attempt, fuel + 1, last, cs, ds =>
    match op attempt params with
    | .success v => ⟨.ok v, cs ++ [params], ds⟩
    | .exchangeErr e => ⟨.nonRetryable e, cs ++ [params], ds⟩
    | .networkError e =>
      retryGo op params (attempt + 1) fuel (some e) (cs ++ [params])
        (ds ++ [backoff_delay attempt])

/-- `_retry_async` (core/exchange.py, lines 165-193). -/
def retry_async {P ε α : Type} (op : ℕ → P → CallOutcome ε α) (params : P) :
    RetryTrace P ε α :=
  retryGo op params 0 MAX_RETRIES none [] []

/-- The number of calls issued by the retry loop is bounded by the
remaining fuel. -/
theorem retryGo_calls_length {P ε α : Type} (op : ℕ → P → CallOutcome ε α) (params : P) :
    ∀ (fuel attempt : ℕ) (last : Option ε) (cs : List P) (ds : List ℚ),
      (retryGo op params attempt fuel last cs ds).calls.length ≤ cs.length + fuel := by
  intro fuel
  induction fuel with
  | zero => intro attempt last cs ds; simp [retryGo]
  | succ n ih =>
    intro attempt last cs ds
    unfold retryGo
    match h : op attempt params with
    | .success v => simp [h]
    | .exchangeErr e => simp [h]
    | .networkError e =>
      simp only [h]
      calc (retryGo op params (attempt + 1) n (some e) (cs ++ [params])
              (ds ++ [backoff_delay attempt])).calls.length
          ≤ (cs ++ [params]).length + n := ih _ _ _ _
        _ ≤ cs.length + (n + 1) := by simp; omega

/-- Every `params` value in the retry loop's call trace is either one of
the accumulated calls or the single `params` value fixed for the run. -/
theorem retryGo_calls_mem {P ε α : Type} (op : ℕ → P → CallOutcome ε α) (params : P) :
    ∀ (fuel attempt : ℕ) (last : Option ε) (cs : List P) (ds : List ℚ) (x : P),
      x ∈ (retryGo op params attempt fuel last cs ds).calls → x ∈ cs ∨ x = params := by
  intro fuel
  induction fuel with
  | zero => intro attempt last cs ds x hx; exact Or.inl (by simpa [retryGo] using hx)
  | succ n ih =>
    intro attempt last cs ds x hx
    unfold retryGo at hx
    match h : op attempt params with
    | .success v =>
      rw [h] at hx
      simp at hx
      tauto
    | .exchangeErr e =>
      rw [h] at hx
      simp at hx
      tauto
    | .networkError e =>
      rw [h] at hx
      have := ih (attempt + 1) (some e) (cs ++ [params]) (ds ++ [backoff_delay attempt]) x hx
      rcases this with hm | hm
      · simp at hm
        tauto
      · exact Or.inr hm

/-- If the call at relative index `j` is a business-rule rejection and all
earlier calls are network failures, the loop stops at attempt `j` with a
non-retryable error, having issued exactly `j + 1` calls and slept the
exponential-backoff delays of the first `j` attempts. -/
theorem retryGo_exchangeErr {P ε α : Type} (op : ℕ → P → CallOutcome ε α) (params : P)
    (er : ε) :
    ∀ (j fuel attempt : ℕ) (last : Option ε) (cs : List P) (ds : List ℚ),
      j < fuel →
      op (attempt + j) params = .exchangeErr er →
      (∀ i, i < j → ∃ en, op (attempt + i) params = .networkError en) →
      retryGo op params attempt fuel last cs ds =
        ⟨.nonRetryable er, cs ++ List.replicate (j + 1) params,
          ds ++ (List.range j).map (fun i => backoff_delay (attempt + i))⟩ := by
  intro j
  induction j with
  | zero =>
    intro fuel attempt last cs ds hj hop _
    match fuel, hj with
    | fuel + 1, _ =>
      unfold retryGo
      rw [show attempt + 0 = attempt from rfl] at hop
      rw [hop]
      simp
  | succ k ih =>
    intro fuel attempt last cs ds hj hop hnet
    match fuel, hj with
    | fuel + 1, hj =>
      obtain ⟨en, hen⟩ := hnet 0 (Nat.succ_pos k)
      unfold retryGo
      rw [show attempt + 0 = attempt from rfl] at hen
      simp only [hen]
      rw [ih fuel (attempt + 1) (some en) (cs ++ [params]) (ds ++ [backoff_delay attempt])
        (by omega)
        (by rw [show attempt + 1 + k = attempt + (k + 1) from by omega]; exact hop)
        (by
          intro i hi
          obtain ⟨en', hen'⟩ := hnet (i + 1) (by omega)
          exact ⟨en', by rw [show attempt + 1 + i = attempt + (i + 1) from by omega]; exact hen'⟩)]
      have hcalls : (cs ++ [params]) ++ List.replicate (k + 1) params =
          cs ++ List.replicate (k + 1 + 1) params := by
        rw [List.append_assoc]
        simp [List.replicate_succ]
      have hf : (fun i => backoff_delay (attempt + 1 + i)) =
          ((fun i => backoff_delay (attempt + i)) ∘ Nat.succ) := by
        funext i
        simp only [Function.comp_apply]
        congr 1
        omega
      have hdelays : (ds ++ [backoff_delay attempt]) ++
            List.map (fun i => backoff_delay (attempt + 1 + i)) (List.range k) =
          ds ++ List.map (fun i => backoff_delay (attempt + i)) (List.range (k + 1)) := by
        rw [List.append_assoc]
        congr 1
        rw [List.range_succ_eq_map, List.map_cons, List.map_map, List.singleton_append, hf,
          Nat.add_zero]
      rw [hcalls, hdelays]

/-! ### Claim C7 -/

/-- C7: every remote call routed through the gateway's `_retry_async`
issues at most `MAX_RETRIES = 5` attempts; if every attempt fails with a
network-class error, the run ends with the terminal error naming the last
underlying cause after sleeping the exponential-backoff delays
`min(1·2^i, 30)` (i.e. 1, 2, 4, 8, 16 seconds); and a business-rule
rejection at any attempt is surfaced immediately as a non-retryable error
with no further attempts, after backoff delays only for the preceding
network failures. -/
theorem retry_policy_correct {ε α : Type} (op : ℕ → Unit → CallOutcome ε α) :
    (retry_async op ()).calls.length ≤ MAX_RETRIES ∧
    (∀ e : ℕ → ε, (∀ i, i < MAX_RETRIES → op i () = .networkError (e i)) →
      retry_async op () =
        ⟨.retriesExhausted (some (e 4)), List.replicate 5 (), [1, 2, 4, 8, 16]⟩) ∧
    (∀ (j : ℕ) (er : ε), j < MAX_RETRIES →
      op j () = .exchangeErr er →
      (∀ i, i < j → ∃ en, op i () = .networkError en) →
      retry_async op () =
        ⟨.nonRetryable er, List.replicate (j + 1) (),
          (List.range j).map backoff_delay⟩) := by
  refine ⟨?_, ?_, ?_⟩
  · simpa using retryGo_calls_length op () MAX_RETRIES 0 none [] []
  · intro e he
    have h0 := he 0 (by norm_num [MAX_RETRIES])
    have h1 := he 1 (by norm_num [MAX_RETRIES])
    have h2 := he 2 (by norm_num [MAX_RETRIES])
    have h3 := he 3 (by norm_num [MAX_RETRIES])
    have h4 := he 4 (by norm_num [MAX_RETRIES])
    simp only [retry_async, MAX_RETRIES, retryGo, h0, h1, h2, h3, h4]
    refine congrArg _ ?_
    norm_num [backoff_delay, RETRY_BASE_DELAY, RETRY_MAX_DELAY]
  · intro j er hj hop hnet
    have := retryGo_exchangeErr op () er j MAX_RETRIES 0 none [] []
      hj (by simpa using hop) (by simpa using hnet)
    simpa [retry_async] using this

/-- Witness for C7: a network failure on attempt 0 followed by a
business-rule rejection on attempt 1 ends as a non-retryable error after
exactly two calls and one 1-second backoff. -/
theorem retry_policy_correct_witness :
    retry_async
        ((fun i _ => if i = 0 then CallOutcome.networkError (0 : ℕ)
          else CallOutcome.exchangeErr (1 : ℕ)) : ℕ → Unit → CallOutcome ℕ ℕ)
        () =
      ⟨RetryOutcome.nonRetryable 1, List.replicate 2 (),
        (List.range 1).map backoff_delay⟩ :=
  (retry_policy_correct _).2.2 1 1 (by norm_num [MAX_RETRIES]) (by norm_num)
    (fun i hi => ⟨0, by interval_cases i; norm_num⟩)

/-- `_generate_client_order_id` (core/exchange.py, lines 195-203):
`'GEM_' + uuid4().hex[:28]` (at most 36 characters for Binance).  The
random `uuid4().hex` draw — a 32-character lowercase hex string — is
passed in explicitly as a list of characters. -/
def _generate_client_order_id (uuid_hex : List Char) : List Char :=
  [ 'G', 'E', 'M', '_' ] ++ uuid_hex.take 28

/-- The mutable `params` kwargs dict built by the four order-creation
gateway operations before entering the retry wrapper; the claims only need
the `newClientOrderId` entry, which is set exactly once per call. -/
structure OrderParams where
  newClientOrderId : List Char
  deriving Repr, DecidableEq

/-- Shared shape of `create_market_order` / `create_limit_order` /
`create_stop_market_order` / `create_take_profit_order`
(core/exchange.py, lines 331-497): generate a fresh client order id from
this call's uuid draw, store it in `params`, and submit through
`_retry_async`, which passes the same `params` object to every transport
attempt. -/
def create_order_with_id {ε α : Type} (uuid_hex : List Char)
    (op : ℕ → OrderParams → CallOutcome ε α) : RetryTrace OrderParams ε α :=
  retry_async op ⟨_generate_client_order_id uuid_hex⟩

/-! ### Claim C8 -/

/-- C8: every transport-level attempt issued within a single
order-creation call carries the same `newClientOrderId`; the id is
`'GEM_'` followed by the first 28 characters of this call's uuid draw, so
with a 32-character `uuid4().hex` it has exactly 32 ≤ 36 characters; and
two calls whose uuid draws differ in their first 28 characters get
different ids. -/
theorem client_order_id_correct {ε α : Type} (u v : List Char)
    (op : ℕ → OrderParams → CallOutcome ε α) :
    (∀ p ∈ (create_order_with_id u op).calls,
      p.newClientOrderId = _generate_client_order_id u) ∧
    (u.length = 32 →
      (_generate_client_order_id u).length = 32 ∧
      (_generate_client_order_id u).length ≤ 36) ∧
    (_generate_client_order_id u).take 4 = [ 'G', 'E', 'M', '_' ] ∧
    (u.take 28 ≠ v.take 28 →
      _generate_client_order_id u ≠ _generate_client_order_id v) := by
  refine ⟨?_, ?_, ?_, ?_⟩
  · intro p hp
    have := retryGo_calls_mem op ⟨_generate_client_order_id u⟩ MAX_RETRIES 0 none [] [] p
      (by simpa [create_order_with_id, retry_async] using hp)
    rcases this with h | h
    · simp at h
    · rw [h]
  · intro hu
    constructor
    · simp [_generate_client_order_id, hu]
    · simp [_generate_client_order_id]
  · have h4 : ([ 'G', 'E', 'M', '_' ] : List Char).length = 4 := rfl
    simpa [_generate_client_order_id] using
      @List.take_left' Char [ 'G', 'E', 'M', '_' ] (u.take 28) 4 h4
  · intro hne heq
    exact hne (List.append_cancel_left heq)

/-- Witness for C8 with a concrete 32-character uuid draw. -/
theorem client_order_id_correct_witness :
    (_generate_client_order_id ("0123456789abcdef0123456789abcdef".toList)).length = 32 ∧
    (_generate_client_order_id ("0123456789abcdef0123456789abcdef".toList)).length ≤ 36 :=
  (client_order_id_correct ("0123456789abcdef0123456789abcdef".toList) []
    ((fun _ _ => CallOutcome.success 0) : ℕ → OrderParams → CallOutcome ℕ ℕ)).2.1
    (by decide)

/-! ## core/execution.py — atomic entry protocol -/

/-- `MAX_SL_RETRIES` (core/execution.py, line 36). -/
def MAX_SL_RETRIES : ℕ := 5

/-- `MAX_TP_RETRIES` (core/execution.py, line 39). -/
def MAX_TP_RETRIES : ℕ := 3

/-- An order side, the `'buy'` / `'sell'` strings of the source. -/
inductive Side where
  | buy
  | sell
  deriving Repr, DecidableEq

/-- The order type submitted to the exchange. -/
inductive OrderKind where
  | market
  | stopMarket
  | takeProfitMarket
  deriving Repr, DecidableEq

/-- One order submission issued to the gateway (the arguments of
`create_market_order` / `create_stop_market_order` /
`create_take_profit_order`), whether or not the exchange accepted it. -/
structure Request where
  kind : OrderKind
  side : Side
  amount : ℚ
  price : Option ℚ
  reduceOnly : Bool
  deriving Repr, DecidableEq

/-- Oracle for the gateway behaviour observed by one
`execute_atomic_entry` run: whether the spread check passes, whether the
entry order is accepted, the `filled` field of the immediate entry
response and of the re-fetched order, and the per-attempt outcomes of the
stop-loss, take-profit and emergency-close placements. -/
structure ExecEnv where
  spread_ok : Bool
  entry_ok : Bool
  entry_filled : ℚ
  refetch_filled : ℚ
  sl_ok : ℕ → Bool
  tp_ok : ℕ → Bool
  close_ok : ℕ → Bool

/-- The exceptions `execute_atomic_entry` can propagate: a spread/stale
abort from step 1, a failed entry order, a `CalculatorError` escaping the
tick lookup of `place_stop_loss`, or the terminal
`ExecutionError("Stop loss placement failed …")`. -/
inductive ExecError where
  | spreadTooWide
  | entryFailed
  | invalidTick
  | stopFailed
  deriving Repr, DecidableEq

/-- The `result` dict returned by `execute_atomic_entry`; orders are
represented by the amount they were placed for. -/
structure ExecResult where
  executed_qty : ℚ
  stop_loss_order : Option ℚ
  take_profit_order : Option ℚ
  success : Bool
  deriving Repr, DecidableEq

/-- A bounded placement-retry loop (`place_stop_loss`,
`place_take_profit` and `emergency_close_position` all share this shape):
submit `req`, return on the first accepted attempt, give up after `fuel`
attempts.  Returns the submissions issued and whether one succeeded. -/
def retry_place (req : Request) (okAt : ℕ → Bool) : ℕ → ℕ → List Request × Bool
  | _, 0 => ([], false)
  | i, fuel + 1 =>
    if okAt i then ([req], true)
    else
      let rest := retry_place req okAt (i + 1) fuel
      (req :: rest.1, rest.2)

/-- Every submission issued by `retry_place` is the fixed request `req`. -/
theorem retry_place_all_eq (req : Request) (okAt : ℕ → Bool) :
    ∀ (fuel i : ℕ), ∀ x ∈ (retry_place req okAt i fuel).1, x = req := by
  intro fuel
  induction fuel with
  | zero => intro i x hx; simp [retry_place] at hx
  | succ n ih =>
    intro i x hx
    unfold retry_place at hx
    split_ifs at hx
    · simpa using hx
    · simp at hx
      rcases hx with h | h
      · exact h
      · exact ih (i + 1) x h

/-- `retry_place` issues at most `fuel` submissions. -/
theorem retry_place_length (req : Request) (okAt : ℕ → Bool) :
    ∀ (fuel i : ℕ), (retry_place req okAt i fuel).1.length ≤ fuel := by
  intro fuel
  induction fuel with
  | zero => intro i; simp [retry_place]
  | succ n ih =>
    intro i
    unfold retry_place
    split_ifs
    · simp
    · simpa using ih (i + 1)

/-- With positive fuel, `retry_place` issues at least one submission. -/
theorem retry_place_mem (req : Request) (okAt : ℕ → Bool) (fuel i : ℕ) :
    req ∈ (retry_place req okAt i (fuel + 1)).1 := by
  unfold retry_place
  split_ifs <;> simp

/-- If every attempt in range fails, `retry_place` issues exactly `fuel`
copies of the request and reports failure. -/
theorem retry_place_all_fail (req : Request) (okAt : ℕ → Bool) :
    ∀ (fuel i : ℕ), (∀ k, k < fuel → okAt (i + k) = false) →
      retry_place req okAt i fuel = (List.replicate fuel req, false) := by
  intro fuel
  induction fuel with
  | zero => intro i _; simp [retry_place]
  | succ n ih =>
    intro i hfail
    unfold retry_place
    rw [if_neg (by simpa using hfail 0 (Nat.succ_pos n))]
    rw [ih (i + 1) (fun k hk => by
      have := hfail (k + 1) (by omega)
      rw [show i + 1 + k = i + (k + 1) from by omega]
      exact this)]
    simp [List.replicate_succ]

/-- `execute_atomic_entry` (core/execution.py, lines 251-449), together
with its helpers `check_spread`, `place_stop_loss`, `place_take_profit`
and `emergency_close_position`.  Step 0 (margin mode / leverage) swallows
its own exceptions and is not modelled.  The second return component is
the trace of every order submission issued to the gateway.  The
`CalculatorError` raised by `floor_price_to_tick` on `tick_size ≤ 0` is
the `.invalidTick` branch; inside the positive-tick branch the total
`floorTick` agrees with `floor_price_to_tick`. -/
def execute_atomic_entry (env : ExecEnv) (is_long : Bool) (quantity : ℚ)
    (stoploss_price : ℚ) (takeprofit_price : Option ℚ) (tick_size : ℚ) :
    Except ExecError ExecResult × List Request :=
  if !env.spread_ok then (.error .spreadTooWide, [])
  else
    let entry_side := if is_long then Side.buy else Side.sell
    let entryReq : Request := ⟨.market, entry_side, quantity, none, false⟩
    if !env.entry_ok then (.error .entryFailed, [entryReq])
    else
      let executed_qty := if env.entry_filled ≠ 0 then env.entry_filled
        else env.refetch_filled
      if executed_qty = 0 then
        (.ok ⟨0, none, none, true⟩, [entryReq])
      else
        let sl_side := if is_long then Side.sell else Side.buy
        if tick_size ≤ 0 then (.error .invalidTick, [entryReq])
        else
          let slReq : Request :=
            ⟨.stopMarket, sl_side, executed_qty,
              some (floorTick stoploss_price tick_size), true⟩
          let sl := retry_place slReq env.sl_ok 0 MAX_SL_RETRIES
          if sl.2 then
            match takeprofit_price with
            | some tp =>
              if 0 < tp then
                let tpReq : Request :=
                  ⟨.takeProfitMarket, sl_side, executed_qty,
                    some (floorTick tp tick_size), true⟩
                let tpr := retry_place tpReq env.tp_ok 0 MAX_TP_RETRIES
                (.ok ⟨executed_qty, some executed_qty,
                    if tpr.2 then some executed_qty else none, true⟩,
                  entryReq :: (sl.1 ++ tpr.1))
              else
                (.ok ⟨executed_qty, some executed_qty, none, true⟩, entryReq :: sl.1)
            | none =>
              (.ok ⟨executed_qty, some executed_qty, none, true⟩, entryReq :: sl.1)
          else
            let closeReq : Request := ⟨.market, sl_side, executed_qty, none, true⟩
            let cl := retry_place closeReq env.close_ok 0 MAX_SL_RETRIES
            (.error .stopFailed, entryReq :: (sl.1 ++ cl.1))

/-! ### Claims C1 and C2 -/

/-- In an entry trace (entry order, then stop-loss attempts, then anything
that is not a stop order) some stop-loss submission for quantity `E`
occurs. -/
theorem stop_in_entry_trace (okAt : ℕ → Bool) (q E slp : ℚ) (sidE sidS : Side)
    (rest : List Request) :
    ∃ req ∈ ((⟨.market, sidE, q, none, false⟩ : Request) ::
        ((retry_place ⟨.stopMarket, sidS, E, some slp, true⟩ okAt 0 MAX_SL_RETRIES).1
          ++ rest)),
      req.kind = OrderKind.stopMarket ∧ req.amount = E := by
  refine ⟨⟨.stopMarket, sidS, E, some slp, true⟩, ?_, rfl, rfl⟩
  simp only [List.mem_cons, List.mem_append]
  exact Or.inr (Or.inl (retry_place_mem _ okAt 4 0))

/-- In an entry trace whose tail contains no stop orders, every stop-loss
submission carries quantity `E`. -/
theorem stop_amount_in_entry_trace (okAt : ℕ → Bool) (q E slp : ℚ) (sidE sidS : Side)
    (rest : List Request) (hrest : ∀ x ∈ rest, x.kind ≠ OrderKind.stopMarket) :
    ∀ req ∈ ((⟨.market, sidE, q, none, false⟩ : Request) ::
        ((retry_place ⟨.stopMarket, sidS, E, some slp, true⟩ okAt 0 MAX_SL_RETRIES).1
          ++ rest)),
      req.kind = OrderKind.stopMarket → req.amount = E := by
  intro req hreq hkind
  simp only [List.mem_cons, List.mem_append] at hreq
  rcases hreq with hreq | hreq | hreq
  · subst hreq
    simp at hkind
  · rw [retry_place_all_eq _ okAt _ _ req hreq]
  · exact absurd hkind (hrest req hreq)

/-- C1: whenever `execute_atomic_entry` returns (instead of raising), the
executed quantity is the entry order's `filled` field, re-read once from a
re-fetched order when the immediate response reads zero; on success with a
nonzero executed quantity a stop-loss order was submitted for exactly that
quantity — indeed every stop-loss submission in the trace carries the
filled quantity, and never the originally requested quantity when the two
differ; and a zero fill (even after the re-fetch) returns success with no
stop-loss submission at all. -/
theorem atomic_entry_protects_filled_qty (env : ExecEnv) (is_long : Bool)
    (quantity stoploss_price : ℚ) (takeprofit_price : Option ℚ) (tick_size : ℚ)
    (r : ExecResult) (log : List Request)
    (h : execute_atomic_entry env is_long quantity stoploss_price takeprofit_price tick_size
      = (.ok r, log)) :
    r.executed_qty
      = (if env.entry_filled ≠ 0 then env.entry_filled else env.refetch_filled) ∧
    r.success = true ∧
    (r.executed_qty ≠ 0 →
      r.stop_loss_order = some r.executed_qty ∧
      (∃ req ∈ log, req.kind = OrderKind.stopMarket ∧ req.amount = r.executed_qty) ∧
      (∀ req ∈ log, req.kind = OrderKind.stopMarket → req.amount = r.executed_qty) ∧
      (quantity ≠ r.executed_qty →
        ∀ req ∈ log, req.kind = OrderKind.stopMarket → req.amount ≠ quantity)) ∧
    (r.executed_qty = 0 → r.stop_loss_order = none ∧
      ∀ req ∈ log, req.kind ≠ OrderKind.stopMarket) := by
  simp only [execute_atomic_entry] at h
  set E := (if env.entry_filled ≠ 0 then env.entry_filled else env.refetch_filled) with hE
  set entrySide := (if is_long then Side.buy else Side.sell) with hSE
  set slSide := (if is_long then Side.sell else Side.buy) with hSS
  cases hs : env.spread_ok with
  | false =>
    rw [hs] at h
    simp at h
  | true =>
  simp only [hs, Bool.not_true, Bool.false_eq_true, if_false] at h
  cases hee : env.entry_ok with
  | false =>
    rw [hee] at h
    simp at h
  | true =>
  simp only [hee, Bool.not_true, Bool.false_eq_true, if_false] at h
  by_cases h0 : E = 0
  · -- zero fill even after the re-fetch: success, no stop order
    rw [if_pos h0] at h
    simp only [Prod.mk.injEq, Except.ok.injEq] at h
    obtain ⟨hr, hlog⟩ := h
    subst hr
    subst hlog
    refine ⟨h0.symm, rfl, fun hne => absurd rfl hne, fun _ => ⟨rfl, ?_⟩⟩
    intro req hreq
    simp at hreq
    subst hreq
    simp
  · rw [if_neg h0] at h
    by_cases ht : tick_size ≤ 0
    · rw [if_pos ht] at h
      simp at h
    · rw [if_neg ht] at h
      by_cases hok : (retry_place
          (⟨.stopMarket, slSide, E, some (floorTick stoploss_price tick_size), true⟩ : Request)
          env.sl_ok 0 MAX_SL_RETRIES).2 = true
      · rw [if_pos hok] at h
        cases takeprofit_price with
        | some tp =>
          dsimp only at h
          by_cases htp : 0 < tp
          · -- tp > 0: best-effort take-profit placement appended to the trace
            rw [if_pos htp] at h
            simp only [Prod.mk.injEq, Except.ok.injEq] at h
            obtain ⟨hr, hlog⟩ := h
            subst hr
            subst hlog
            have hrest : ∀ x ∈ (retry_place
                (⟨.takeProfitMarket, slSide, E, some (floorTick tp tick_size), true⟩ : Request)
                env.tp_ok 0 MAX_TP_RETRIES).1,
                x.kind ≠ OrderKind.stopMarket := by
              intro x hx
              rw [retry_place_all_eq _ env.tp_ok _ _ x hx]
              simp
            refine ⟨rfl, rfl, fun _ => ⟨rfl, ?_, ?_, ?_⟩, fun hc => absurd hc h0⟩
            · exact stop_in_entry_trace env.sl_ok quantity E _ _ _ _
            · exact stop_amount_in_entry_trace env.sl_ok quantity E _ _ _ _ hrest
            · intro hneq req hm hk ha
              have := stop_amount_in_entry_trace env.sl_ok quantity E _ _ _ _ hrest
                req hm hk
              rw [this] at ha
              exact hneq ha.symm
          · -- tp ≤ 0: no take-profit order
            rw [if_neg htp] at h
            simp only [Prod.mk.injEq, Except.ok.injEq] at h
            obtain ⟨hr, hlog⟩ := h
            subst hr
            subst hlog
            refine ⟨rfl, rfl, fun _ => ⟨rfl, ?_, ?_, ?_⟩, fun hc => absurd hc h0⟩
            · simpa using stop_in_entry_trace env.sl_ok quantity E
                (floorTick stoploss_price tick_size) entrySide slSide []
            · intro req hm hk
              exact stop_amount_in_entry_trace env.sl_ok quantity E _ _ _ [] (by simp)
                req (by simpa using hm) hk
            · intro hneq req hm hk ha
              have := stop_amount_in_entry_trace env.sl_ok quantity E _ _ _ [] (by simp)
                req (by simpa using hm) hk
              rw [this] at ha
              exact hneq ha.symm
        | none =>
          dsimp only at h
          simp only [Prod.mk.injEq, Except.ok.injEq] at h
          obtain ⟨hr, hlog⟩ := h
          subst hr
          subst hlog
          refine ⟨rfl, rfl, fun _ => ⟨rfl, ?_, ?_, ?_⟩, fun hc => absurd hc h0⟩
          · simpa using stop_in_entry_trace env.sl_ok quantity E
              (floorTick stoploss_price tick_size) entrySide slSide []
          · intro req hm hk
            exact stop_amount_in_entry_trace env.sl_ok quantity E _ _ _ [] (by simp)
              req (by simpa using hm) hk
          · intro hneq req hm hk ha
            have := stop_amount_in_entry_trace env.sl_ok quantity E _ _ _ [] (by simp)
              req (by simpa using hm) hk
            rw [this] at ha
            exact hneq ha.symm
      · -- stop-loss placement failed: the run raises, never returns
        rw [if_neg hok] at h
        simp at h

/-- Witness for C1: a partially filled entry (requested 5, filled 3) whose
stop-loss placement succeeds on the first attempt is protected by a stop
order sized to the filled 3, not the requested 5. -/
theorem atomic_entry_protects_filled_qty_witness :
    (⟨3, some 3, none, true⟩ : ExecResult).stop_loss_order
      = some (⟨3, some 3, none, true⟩ : ExecResult).executed_qty := by
  have hrun : execute_atomic_entry
      ⟨true, true, 3, 0, fun _ => true, fun _ => true, fun _ => true⟩
      true 5 49 none 1
      = (.ok ⟨3, some 3, none, true⟩,
        [⟨.market, Side.buy, 5, none, false⟩,
         ⟨.stopMarket, Side.sell, 3, some (floorTick 49 1), true⟩]) := rfl
  exact ((atomic_entry_protects_filled_qty _ _ _ _ _ _ _ _ hrun).2.2.1
    (by norm_num)).1

/-- C2: if the fill is nonzero and every stop-loss attempt fails,
`execute_atomic_entry` always raises `ExecutionError` (never returns
success, whether or not the unwind succeeded), after issuing at least one
reduce-only market order on the position-closing side for exactly the
filled quantity; the emergency unwind itself issues at most
`MAX_SL_RETRIES` submissions. -/
theorem atomic_entry_emergency_unwind (env : ExecEnv) (is_long : Bool)
    (quantity stoploss_price : ℚ) (takeprofit_price : Option ℚ) (tick_size : ℚ)
    (hspread : env.spread_ok = true) (hentry : env.entry_ok = true)
    (htick : 0 < tick_size)
    (hfill : (if env.entry_filled ≠ 0 then env.entry_filled else env.refetch_filled) ≠ 0)
    (hsl : ∀ i, i < MAX_SL_RETRIES → env.sl_ok i = false) :
    (execute_atomic_entry env is_long quantity stoploss_price takeprofit_price tick_size).1
      = .error .stopFailed ∧
    (∃ req ∈ (execute_atomic_entry env is_long quantity stoploss_price takeprofit_price
        tick_size).2,
      req.kind = OrderKind.market ∧ req.reduceOnly = true ∧
      req.amount = (if env.entry_filled ≠ 0 then env.entry_filled else env.refetch_filled) ∧
      req.side = (if is_long then Side.sell else Side.buy)) ∧
    ((execute_atomic_entry env is_long quantity stoploss_price takeprofit_price
        tick_size).2.filter
          (fun req => decide (req.kind = OrderKind.market ∧ req.reduceOnly = true))).length
      ≤ MAX_SL_RETRIES := by
  have hrun : execute_atomic_entry env is_long quantity stoploss_price takeprofit_price
      tick_size =
      (.error .stopFailed,
        (⟨.market, if is_long then Side.buy else Side.sell, quantity, none, false⟩ : Request)
          :: (List.replicate MAX_SL_RETRIES
              ⟨.stopMarket, if is_long then Side.sell else Side.buy,
                if env.entry_filled ≠ 0 then env.entry_filled else env.refetch_filled,
                some (floorTick stoploss_price tick_size), true⟩
            ++ (retry_place
                ⟨.market, if is_long then Side.sell else Side.buy,
                  if env.entry_filled ≠ 0 then env.entry_filled else env.refetch_filled,
                  none, true⟩
                env.close_ok 0 MAX_SL_RETRIES).1)) := by
    simp only [execute_atomic_entry, hspread, hentry, Bool.not_true, Bool.false_eq_true,
      if_false]
    rw [if_neg hfill, if_neg (not_le.mpr htick),
      retry_place_all_fail _ env.sl_ok MAX_SL_RETRIES 0
        (fun k hk => by simpa using hsl k hk)]
    simp
  rw [hrun]
  refine ⟨rfl,
    ⟨⟨.market, if is_long then Side.sell else Side.buy,
        if env.entry_filled ≠ 0 then env.entry_filled else env.refetch_filled,
        none, true⟩, ?_, rfl, rfl, rfl, rfl⟩, ?_⟩
  · simp only [List.mem_cons, List.mem_append]
    exact Or.inr (Or.inr (retry_place_mem _ env.close_ok 4 0))
  · rw [List.filter_cons_of_neg (by simp), List.filter_append,
      List.filter_eq_nil.mpr (by
        intro a ha
        rw [List.eq_of_mem_replicate ha]
        simp)]
    simp only [List.nil_append]
    calc (List.filter _ (retry_place _ env.close_ok 0 MAX_SL_RETRIES).1).length
      ≤ (retry_place _ env.close_ok 0 MAX_SL_RETRIES).1.length := List.length_filter_le _ _
      _ ≤ MAX_SL_RETRIES := retry_place_length _ env.close_ok MAX_SL_RETRIES 0

/-- Witness for C2: a full fill of 2 whose five stop-loss attempts all
fail; the run raises and the unwind order is issued. -/
theorem atomic_entry_emergency_unwind_witness :
    (execute_atomic_entry
        ⟨true, true, 2, 0, fun _ => false, fun _ => true, fun _ => true⟩
        true 2 49 none 1).1 = .error .stopFailed :=
  (atomic_entry_emergency_unwind
    ⟨true, true, 2, 0, fun _ => false, fun _ => true, fun _ => true⟩
    true 2 49 none 1 rfl rfl (by norm_num) (by norm_num)
    (fun i _ => rfl)).1

/-! ## strategy/manager.py — trailing stops (long positions) -/

/-- Per-`PositionManager` configuration relevant to trailing for one long
position: entry price, `trailing_activation_percent / 100`,
`trailing_callback_percent / 100` (the constructor divides by 100), and
the symbol's tick size. -/
structure TrailConfig where
  entry_price : ℚ
  trailing_activation : ℚ
  trailing_callback : ℚ
  tick_size : ℚ

/-- The part of `PositionTracker` plus exchange state that one trailing
cycle reads and writes for a long position: the tracked highest price, the
sticky activation flag, and the `stopPrice` of the stop order currently
open on the exchange. -/
structure TrailState where
  highest_price : ℚ
  trailing_activated : Bool
  sl_price : ℚ

/-- One `process_trailing_stops` cycle for a long position on the normal
path (strategy/manager.py, lines 408-517): update the price extreme,
check sticky activation, compute the trailing candidate
`highest * (1 - callback)` and, only if it is strictly greater than the
current stop order's `stopPrice`, cancel-and-replace the stop at the
candidate floored to the tick (`_move_stop_loss`, success path;
TP-timeout handling, missing-stop skips and placement failures are
outside this path).  Returns the new state and the submitted stop price,
if any. -/
def trail_cycle (cfg : TrailConfig) (st : TrailState) (price : ℚ) :
    TrailState × Option ℚ :=
  let high := max st.highest_price price
  let act := st.trailing_activated ||
    decide (cfg.entry_price * (1 + cfg.trailing_activation) ≤ price)
  if act then
    let cand := high * (1 - cfg.trailing_callback)
    if st.sl_price < cand then
      let newsl := floorTick cand cfg.tick_size
      (⟨high, act, newsl⟩, some newsl)
    else (⟨high, act, st.sl_price⟩, none)
  else (⟨high, act, st.sl_price⟩, none)

/-- Iterate `trail_cycle` over a sequence of ticker prices, collecting the
submitted stop prices in order. -/
def trail_run (cfg : TrailConfig) : TrailState → List ℚ → TrailState × List ℚ
  | st, [] => (st, [])
  | st, p :: ps =>
    let step := trail_cycle cfg st p
    let rest := trail_run cfg step.1 ps
    (rest.1, step.2.toList ++ rest.2)

/-- A trailing cycle always updates the highest price to
`max highest price`. -/
theorem trail_cycle_highest (cfg : TrailConfig) (st : TrailState) (price : ℚ) :
    (trail_cycle cfg st price).1.highest_price = max st.highest_price price := by
  simp only [trail_cycle]
  split_ifs <;> rfl

/-- A submission, when it happens, is the tick-floored trailing candidate
computed from the updated highest price; it happens only when the
unfloored candidate strictly exceeds the current stop price, and it
becomes the new on-exchange stop price. -/
theorem trail_cycle_some (cfg : TrailConfig) (st : TrailState) (price q : ℚ)
    (h : (trail_cycle cfg st price).2 = some q) :
    st.sl_price < max st.highest_price price * (1 - cfg.trailing_callback) ∧
    q = floorTick (max st.highest_price price * (1 - cfg.trailing_callback))
      cfg.tick_size ∧
    (trail_cycle cfg st price).1.sl_price = q := by
  simp only [trail_cycle] at h ⊢
  split_ifs at h ⊢ with h1 h2
  · simp only [Option.some.injEq] at h
    subst h
    exact ⟨h2, rfl, rfl⟩
  all_goals simp at h

/-- Tick flooring is monotone for a positive tick. -/
theorem floorTick_mono (t x y : ℚ) (ht : 0 < t) (hxy : x ≤ y) :
    floorTick x t ≤ floorTick y t := by
  unfold floorTick
  have h1 : x / t ≤ y / t := div_le_div_of_nonneg_right hxy ht.le
  have h2 : ⌊x / t⌋ ≤ ⌊y / t⌋ := Int.floor_le_floor h1
  exact mul_le_mul_of_nonneg_right (by exact_mod_cast h2) ht.le

/-- Every stop price submitted during a run is at least the tick-floored
candidate of the starting state's highest price. -/
theorem trail_run_lower_bound (cfg : TrailConfig) (ht : 0 < cfg.tick_size)
    (hcb : cfg.trailing_callback ≤ 1) :
    ∀ (ps : List ℚ) (st : TrailState) (q : ℚ), q ∈ (trail_run cfg st ps).2 →
      floorTick (st.highest_price * (1 - cfg.trailing_callback)) cfg.tick_size ≤ q := by
  intro ps
  induction ps with
  | nil => intro st q hq; simp [trail_run] at hq
  | cons p ps ih =>
    intro st q hq
    simp only [trail_run, List.mem_append] at hq
    have hhigh : st.highest_price * (1 - cfg.trailing_callback)
        ≤ (trail_cycle cfg st p).1.highest_price * (1 - cfg.trailing_callback) := by
      rw [trail_cycle_highest]
      exact mul_le_mul_of_nonneg_right (le_max_left _ _) (by linarith)
    rcases hq with hq | hq
    · match ho : (trail_cycle cfg st p).2 with
      | none => rw [ho] at hq; simp at hq
      | some q0 =>
        rw [ho] at hq
        simp only [Option.toList_some, List.mem_singleton] at hq
        obtain ⟨-, hq0, -⟩ := trail_cycle_some cfg st p q0 ho
        rw [hq, hq0, ← trail_cycle_highest cfg st p]
        exact floorTick_mono _ _ _ ht hhigh
    · calc floorTick (st.highest_price * (1 - cfg.trailing_callback)) cfg.tick_size
          ≤ floorTick ((trail_cycle cfg st p).1.highest_price
              * (1 - cfg.trailing_callback)) cfg.tick_size :=
            floorTick_mono _ _ _ ht hhigh
        _ ≤ q := ih (trail_cycle cfg st p).1 q hq

/-! ### Claim C4 -/

/-- C4 counterexample: entry 100, activation 1 %, callback 0.5 %, tick
0.01, initial stop 98.  A first cycle at price 101.1 activates trailing
and moves the stop to 100.59 (candidate 100.5945 floored to the tick).
The next cycle's price 100.5 is a retracement (lower than 101.1), yet the
unfloored candidate 100.5945 still exceeds the on-exchange stop 100.59,
so the code cancels and re-submits the stop — a price retracement does
trigger a stop move. -/
theorem trailing_retracement_triggers_move :
    (201 : ℚ)/2 < 1011/10 ∧
    ((trail_cycle ⟨100, 1/100, 1/200, 1/100⟩
        (trail_cycle ⟨100, 1/100, 1/200, 1/100⟩ ⟨100, false, 98⟩ (1011/10)).1
        (201/2)).2).isSome = true := by
  have hfl : floorTick ((1011 : ℚ)/10 * (1 - 1/200)) (1/100) = 10059/100 := by
    unfold floorTick
    rw [show ((1011 : ℚ)/10 * (1 - 1/200)) / (1/100) = 201189/20 by norm_num]
    rw [show ⌊(201189 : ℚ)/20⌋ = 10059 from by
      rw [Int.floor_eq_iff]
      constructor <;> norm_num]
    norm_num
  have h1 : trail_cycle ⟨100, 1/100, 1/200, 1/100⟩ ⟨100, false, 98⟩ (1011/10)
      = (⟨1011/10, true, 10059/100⟩, some (10059/100)) := by
    simp only [trail_cycle]
    rw [max_eq_right (by norm_num : (100 : ℚ) ≤ 1011/10)]
    rw [show (false || decide ((100 : ℚ) * (1 + 1/100) ≤ 1011/10)) = true from by
      norm_num]
    rw [if_pos rfl]
    rw [if_pos (by norm_num : (98 : ℚ) < 1011/10 * (1 - 1/200))]
    rw [hfl]
  refine ⟨by norm_num, ?_⟩
  rw [h1]
  simp only [trail_cycle]
  rw [max_eq_left (by norm_num : (201 : ℚ)/2 ≤ 1011/10)]
  rw [show (true || decide ((100 : ℚ) * (1 + 1/100) ≤ 201/2)) = true from by norm_num]
  rw [if_pos rfl]
  rw [if_pos (by norm_num : (10059 : ℚ)/100 < 1011/10 * (1 - 1/200))]
  simp

/-- C4 amended: for a long position (tick > 0, callback ≤ 100 %), a
replacement stop is submitted only when the unfloored candidate
`highest * (1 - callback)` strictly exceeds the current stop order's stop
price, and the submitted price is that candidate floored to the tick;
consequently over any price sequence — increasing or not — the submitted
stop prices form a non-decreasing sequence, and when the current stop
price is tick-aligned a move never lowers it; however a retracement can
still trigger a cancel-and-replace at the same floored price (see the
counterexample), so "a price retracement never triggers a stop move" does
not hold verbatim. -/
theorem trailing_stop_monotone (cfg : TrailConfig) (ht : 0 < cfg.tick_size)
    (hcb : cfg.trailing_callback ≤ 1) :
    (∀ (st : TrailState) (p q : ℚ), (trail_cycle cfg st p).2 = some q →
      st.sl_price < max st.highest_price p * (1 - cfg.trailing_callback) ∧
      q = floorTick (max st.highest_price p * (1 - cfg.trailing_callback))
        cfg.tick_size) ∧
    (∀ (st : TrailState) (ps : List ℚ),
      List.Chain' (· ≤ ·) (trail_run cfg st ps).2) ∧
    (∀ (st : TrailState) (p q : ℚ) (k : ℤ), st.sl_price = (k : ℚ) * cfg.tick_size →
      (trail_cycle cfg st p).2 = some q → st.sl_price ≤ q) := by
  refine ⟨?_, ?_, ?_⟩
  · intro st p q h
    obtain ⟨h1, h2, -⟩ := trail_cycle_some cfg st p q h
    exact ⟨h1, h2⟩
  · intro st ps
    induction ps generalizing st with
    | nil => simp [trail_run]
    | cons p ps ih =>
      simp only [trail_run]
      match ho : (trail_cycle cfg st p).2 with
      | none => simpa using ih (trail_cycle cfg st p).1
      | some q0 =>
        simp only [Option.toList_some, List.singleton_append]
        rw [List.chain'_cons']
        refine ⟨?_, ih (trail_cycle cfg st p).1⟩
        intro b hb
        have hbmem : b ∈ (trail_run cfg (trail_cycle cfg st p).1 ps).2 :=
          List.mem_of_mem_head? hb
        obtain ⟨-, hq0, -⟩ := trail_cycle_some cfg st p q0 ho
        have hlow := trail_run_lower_bound cfg ht hcb ps (trail_cycle cfg st p).1 b hbmem
        rw [trail_cycle_highest] at hlow
        rw [hq0]
        exact hlow
  · intro st p q k hk h
    obtain ⟨h1, h2, -⟩ := trail_cycle_some cfg st p q h
    rw [hk] at h1 ⊢
    rw [h2]
    unfold floorTick
    have hkle : k ≤ ⌊max st.highest_price p * (1 - cfg.trailing_callback)
        / cfg.tick_size⌋ := by
      rw [Int.le_floor, le_div_iff ht]
      exact h1.le
    exact mul_le_mul_of_nonneg_right (by exact_mod_cast hkle) ht.le

/-- Witness for C4's amended theorem: the submitted stop prices over a
concrete rising-then-retracing price sequence form a chain. -/
theorem trailing_stop_monotone_witness :
    List.Chain' (· ≤ ·)
      (trail_run ⟨100, 1/100, 1/200, 1/100⟩ ⟨100, false, 98⟩
        [1011/10, 201/2, 102]).2 :=
  (trailing_stop_monotone ⟨100, 1/100, 1/200, 1/100⟩ (by norm_num)
    (by norm_num)).2.1 ⟨100, false, 98⟩ [1011/10, 201/2, 102]

/-! ## core/safety.py — Ghost Synchronizer -/

/-- `QTY_MISMATCH_TOLERANCE` (core/safety.py, line 24): `0.00001`. -/
def QTY_MISMATCH_TOLERANCE : ℚ := 1/100000

/-- An exchange position as the Ghost Synchronizer reads it: symbol,
signed contract quantity, the reported side string (lower-case as ccxt
reports it) and the entry price. -/
structure Position where
  symbol : String
  contracts : ℚ
  side : String
  entryPrice : ℚ
  deriving Repr, DecidableEq

/-- An open order as reported by the exchange; `id`s are modelled as
naturals. -/
structure Order where
  id : ℕ
  symbol : String
  type : String
  side : String
  amount : ℚ
  stopPrice : ℚ
  deriving Repr, DecidableEq

/-- `is_stop_order` (core/safety.py, lines 32-43); order types are stored
upper-case, as Binance reports them. -/
def is_stop_order (o : Order) : Bool :=
  decide (o.type = "STOP_MARKET" ∨ o.type = "STOP" ∨ o.type = "STOP_LOSS" ∨
    o.type = "STOP_LOSS_LIMIT")

/-- Position side as derived by `get_position_side`
(core/safety.py, lines 46-61): LONG when the side string is `'long'` or
the signed quantity is positive, SHORT otherwise. -/
inductive PosSide where
  | long
  | short
  deriving Repr, DecidableEq

/-- `get_position_side` (core/safety.py, lines 46-61). -/
def get_position_side (p : Position) : PosSide :=
  if p.side = "long" ∨ 0 < p.contracts then .long else .short

/-- `get_position_qty` (core/safety.py, lines 64-75): absolute contract
quantity. -/
def get_position_qty (p : Position) : ℚ := |p.contracts|

/-- The protective side a stop order must have for a position: `'sell'`
for a LONG, `'buy'` for a SHORT (`find_stop_loss_for_position`,
core/safety.py, line 97). -/
def expected_sl_side (p : Position) : String :=
  if get_position_side p = .long then "sell" else "buy"

/-- The per-order predicate of `find_stop_loss_for_position`
(core/safety.py, lines 78-110): same symbol, stop type, protective
side. -/
def sl_matches (p : Position) (o : Order) : Bool :=
  decide (o.symbol = p.symbol) && is_stop_order o &&
    decide (o.side = expected_sl_side p)

/-- `find_stop_loss_for_position` (core/safety.py, lines 78-110): the
first matching open order, if any. -/
def find_stop_loss_for_position (p : Position) (open_orders : List Order) :
    Option Order :=
  open_orders.find? (sl_matches p)

/-- All open stop orders protecting a position (the pass never looks past
the first, which is what claim C3 is about). -/
def matching_stops (p : Position) (open_orders : List Order) : List Order :=
  open_orders.filter (sl_matches p)

/-- `check_sl_qty_mismatch` (core/safety.py, lines 113-129). -/
def check_sl_qty_mismatch (position_qty sl_qty : ℚ) : Bool × ℚ :=
  let diff := |position_qty - sl_qty|
  (decide (QTY_MISMATCH_TOLERANCE < diff), diff)

/-- The exchange-side state the pass mutates: the open orders and a fresh
order-id supply. -/
structure SyncState where
  orders : List Order
  next_id : ℕ
  deriving Repr, DecidableEq

/-- The stop order built and submitted by `fix_missing_stop_loss`
(core/safety.py, lines 132-219): protective side, full position quantity,
stop price derived from the entry price and the stop percentage, floored
to the symbol's tick. -/
def new_stop_order (tickOf : String → ℚ) (stoploss_percent : ℚ) (p : Position)
    (oid : ℕ) : Order :=
  let multiplier := 1 - stoploss_percent / 100
  let sl_price := if get_position_side p = .long then p.entryPrice * multiplier
    else p.entryPrice * (2 - multiplier)
  ⟨oid, p.symbol, "STOP_MARKET", expected_sl_side p, get_position_qty p,
    floorTick sl_price (tickOf p.symbol)⟩

/-- `fix_missing_stop_loss` (core/safety.py, lines 132-219): fails when
the entry price is unknown (0); otherwise submits the protective stop for
the full position quantity.  The immediate re-fetch verification finds
the order open in this model (the exchange accepts it), so those branches
return success. -/
def fix_missing_stop_loss (tickOf : String → ℚ) (stoploss_percent : ℚ)
    (p : Position) (st : SyncState) : Bool × SyncState :=
  if p.entryPrice = 0 then (false, st)
  else
    (true, ⟨st.orders ++ [new_stop_order tickOf stoploss_percent p st.next_id],
      st.next_id + 1⟩)

/-- `cancel_order` as the pass uses it: remove the first open order with
the given id. -/
def cancel_order (order_id : ℕ) (st : SyncState) : SyncState :=
  ⟨st.orders.eraseP (fun o => decide (o.id = order_id)), st.next_id⟩

/-- `fix_qty_mismatch` (core/safety.py, lines 222-272): cancel the stale
stop, then re-run the missing-stop repair at the current position
quantity. -/
def fix_qty_mismatch (tickOf : String → ℚ) (stoploss_percent : ℚ)
    (p : Position) (sl_order : Order) (st : SyncState) : Bool × SyncState :=
  fix_missing_stop_loss tickOf stoploss_percent p (cancel_order sl_order.id st)

/-- The counters `ghost_synchronizer` returns
(core/safety.py, lines 301-307). -/
structure SyncResult where
  positions_checked : ℕ
  missing_sl_fixed : ℕ
  qty_mismatch_fixed : ℕ
  errors : ℕ
  all_synced : Bool
  deriving Repr, DecidableEq

/-- One iteration of the `ghost_synchronizer` position loop
(core/safety.py, lines 343-402).  `snapshot` is the open-order list
fetched once before the loop; repairs mutate the live exchange state
`st`. -/
def ghost_step (tickOf : String → ℚ) (stoploss_percent : ℚ)
    (snapshot : List Order) (acc : SyncResult × SyncState) (p : Position) :
    SyncResult × SyncState :=
  let r := { acc.1 with positions_checked := acc.1.positions_checked + 1 }
  let st := acc.2
  match find_stop_loss_for_position p snapshot with
  | none =>
    let fix := fix_missing_stop_loss tickOf stoploss_percent p st
    if fix.1 then ({ r with missing_sl_fixed := r.missing_sl_fixed + 1 }, fix.2)
    else ({ r with errors := r.errors + 1 }, fix.2)
  | some sl_order =>
    if (check_sl_qty_mismatch (get_position_qty p) sl_order.amount).1 then
      let fix := fix_qty_mismatch tickOf stoploss_percent p sl_order st
      if fix.1 then
        ({ r with qty_mismatch_fixed := r.qty_mismatch_fixed + 1 }, fix.2)
      else ({ r with errors := r.errors + 1 }, fix.2)
    else (r, st)

/-- `ghost_synchronizer` (core/safety.py, lines 275-418) over a fixed
exchange snapshot: fold the repair step over all open positions, then
report `all_synced` exactly when no repair failed.  `next_id` is the
exchange's next fresh order id. -/
def ghost_synchronizer (tickOf : String → ℚ) (stoploss_percent : ℚ)
    (positions : List Position) (orders : List Order) (next_id : ℕ) :
    SyncResult × SyncState :=
  let run := positions.foldl (ghost_step tickOf stoploss_percent orders)
    (⟨0, 0, 0, 0, false⟩, ⟨orders, next_id⟩)
  ({ run.1 with all_synced := run.1.errors = 0 }, run.2)

/-- A matching stop order is on the position's symbol. -/
theorem sl_matches_symbol (p : Position) (o : Order) (h : sl_matches p o = true) :
    o.symbol = p.symbol := by
  simp only [sl_matches, Bool.and_eq_true, decide_eq_true_eq] at h
  exact h.1.1

/-- Orders on another symbol never match. -/
theorem sl_matches_of_ne_symbol (p : Position) (o : Order)
    (h : o.symbol ≠ p.symbol) : sl_matches p o = false := by
  cases hm : sl_matches p o
  · rfl
  · exact absurd (sl_matches_symbol p o hm) h

/-- The repair's freshly built stop order matches its position. -/
theorem sl_matches_new_stop_order (tickOf : String → ℚ) (sp : ℚ) (p : Position)
    (oid : ℕ) : sl_matches p (new_stop_order tickOf sp p oid) = true := by
  simp [sl_matches, new_stop_order, is_stop_order]

/-- Appending an order of another symbol leaves a position's stop slice
unchanged. -/
theorem matching_stops_append_other (p : Position) (l : List Order) (o : Order)
    (h : o.symbol ≠ p.symbol) :
    matching_stops p (l ++ [o]) = matching_stops p l := by
  simp [matching_stops, List.filter_append, sl_matches_of_ne_symbol p o h]

/-- Appending a matching order extends a position's stop slice by it. -/
theorem matching_stops_append_match (p : Position) (l : List Order) (o : Order)
    (h : sl_matches p o = true) :
    matching_stops p (l ++ [o]) = matching_stops p l ++ [o] := by
  simp [matching_stops, List.filter_append, h]

/-- When every order that the erasure predicate selects fails the filter,
erasing does not change the filter. -/
theorem filter_eraseP_of_none {α : Type} (f g : α → Bool) :
    ∀ l : List α, (∀ x ∈ l, g x = true → f x = false) →
      List.filter f (List.eraseP g l) = List.filter f l := by
  intro l
  induction l with
  | nil => intro _; rfl
  | cons x xs ih =>
    intro h
    by_cases hgx : g x = true
    · simp only [List.eraseP_cons, hgx, cond_true]
      rw [List.filter_cons, if_neg (by simp [h x (List.mem_cons_self x xs) hgx])]
    · simp only [List.eraseP_cons, hgx, cond_false]
      rw [List.filter_cons, List.filter_cons,
        ih (fun y hy => h y (List.mem_cons_of_mem x hy))]

/-- When the filter of `l` is exactly `[a]`, every order the erasure
predicate selects is `a`, and `a` itself is selected, erasing empties the
filter. -/
theorem filter_eraseP_of_unique {α : Type} (f g : α → Bool) (a : α) :
    ∀ l : List α, List.filter f l = [a] → (∀ x ∈ l, g x = true → x = a) →
      g a = true → List.filter f (List.eraseP g l) = [] := by
  intro l
  induction l with
  | nil => intro h _ _; simp at h
  | cons x xs ih =>
    intro hf hg hga
    have hfa : f a = true := by
      have : a ∈ List.filter f (x :: xs) := by rw [hf]; exact List.mem_singleton_self a
      exact (List.mem_filter.mp this).2
    by_cases hgx : g x = true
    · have hxa : x = a := hg x (List.mem_cons_self x xs) hgx
      subst hxa
      simp only [List.eraseP_cons, hgx, cond_true]
      rw [List.filter_cons, if_pos (by simp [hfa])] at hf
      simpa using hf
    · simp only [List.eraseP_cons, hgx, cond_false]
      by_cases hfx : f x = true
      · exfalso
        rw [List.filter_cons, if_pos (by simp [hfx])] at hf
        have hxa : x = a := by
          have := congrArg (fun l => l.head?) hf
          simpa using this
        subst hxa
        exact hgx hga
      · rw [List.filter_cons, if_neg (by simp [hfx])] at hf ⊢
        exact ih hf (fun y hy => hg y (List.mem_cons_of_mem x hy)) hga

/-- A `find?` hit within a filter of length at most 1 is the whole
filter. -/
theorem filter_eq_singleton_of_find? {α : Type} (f : α → Bool) (l : List α) (a : α)
    (hfind : l.find? f = some a) (hlen : (l.filter f).length ≤ 1) :
    l.filter f = [a] := by
  have hmem : a ∈ l := List.mem_of_find?_eq_some hfind
  have hfa : f a = true := List.find?_some hfind
  have ha : a ∈ l.filter f := List.mem_filter.mpr ⟨hmem, hfa⟩
  cases hfl : l.filter f with
  | nil => rw [hfl] at ha; simp at ha
  | cons x t =>
    cases t with
    | nil =>
      rw [hfl] at ha
      simp at ha
      rw [ha]
    | cons y t2 =>
      rw [hfl] at hlen
      simp at hlen

/-- If a `find?` over a list misses, the corresponding filter is empty. -/
theorem filter_eq_nil_of_find?_none {α : Type} (f : α → Bool) (l : List α)
    (hfind : l.find? f = none) : l.filter f = [] := by
  rw [List.filter_eq_nil]
  intro a ha
  exact List.find?_eq_none.mp hfind a ha

/-- Members of a list whose mapped ids are pairwise distinct are
determined by their id. -/
theorem order_id_injective (l : List Order) (h : (l.map Order.id).Nodup) :
    ∀ a ∈ l, ∀ b ∈ l, a.id = b.id → a = b := by
  intro a ha b hb hab
  exact List.inj_on_of_nodup_map h ha hb hab

/-- Exchange-state well-formedness maintained by the pass: order ids are
below the fresh-id supply and pairwise distinct, any order with a
pre-pass id is a snapshot order, and the supply never goes below the
initial one. -/
def SyncInv (snapshot : List Order) (n₀ : ℕ) (st : SyncState) : Prop :=
  (∀ o ∈ st.orders, o.id < st.next_id) ∧
  (st.orders.map Order.id).Nodup ∧
  (∀ o ∈ st.orders, o.id < n₀ → o ∈ snapshot) ∧
  n₀ ≤ st.next_id

/-- Appending an order with the fresh id preserves well-formedness. -/
theorem SyncInv_append (snapshot : List Order) (n₀ : ℕ) (st : SyncState)
    (o : Order) (hinv : SyncInv snapshot n₀ st) (hid : o.id = st.next_id) :
    SyncInv snapshot n₀ ⟨st.orders ++ [o], st.next_id + 1⟩ := by
  obtain ⟨h1, h2, h3, h4⟩ := hinv
  refine ⟨?_, ?_, ?_, ?_⟩
  · intro x hx
    simp only [List.mem_append, List.mem_singleton] at hx
    rcases hx with hx | hx
    · exact Nat.lt_succ_of_lt (h1 x hx)
    · subst hx
      dsimp only
      omega
  · rw [List.map_append]
    refine List.Nodup.append h2 (by simp) ?_
    intro i hi hio
    simp only [List.map_cons, List.map_nil, List.mem_singleton] at hio
    subst hio
    simp only [List.mem_map] at hi
    obtain ⟨x, hx, hxi⟩ := hi
    have := h1 x hx
    omega
  · intro x hx hxlt
    simp only [List.mem_append, List.mem_singleton] at hx
    rcases hx with hx | hx
    · exact h3 x hx hxlt
    · subst hx
      exact absurd hxlt (by omega)
  · dsimp only
    omega

/-- Cancelling an order preserves well-formedness. -/
theorem SyncInv_cancel (snapshot : List Order) (n₀ : ℕ) (st : SyncState)
    (i : ℕ) (hinv : SyncInv snapshot n₀ st) :
    SyncInv snapshot n₀ (cancel_order i st) := by
  obtain ⟨h1, h2, h3, h4⟩ := hinv
  have hsub : List.Sublist (st.orders.eraseP (fun o => decide (o.id = i))) st.orders :=
    List.eraseP_sublist _
  refine ⟨?_, ?_, ?_, h4⟩
  · intro x hx
    exact h1 x (hsub.subset hx)
  · exact h2.sublist (hsub.map Order.id)
  · intro x hx hxlt
    exact h3 x (hsub.subset hx) hxlt

/-- The error counter never decreases across one repair step. -/
theorem ghost_step_errors_le (tickOf : String → ℚ) (sp : ℚ) (snapshot : List Order)
    (a : SyncResult × SyncState) (p : Position) :
    a.1.errors ≤ (ghost_step tickOf sp snapshot a p).1.errors := by
  cases hf : find_stop_loss_for_position p snapshot with
  | none =>
    simp only [ghost_step, hf]
    split_ifs <;> simp
  | some slo =>
    simp only [ghost_step, hf]
    split_ifs <;> simp

/-- The error counter never decreases across a whole pass. -/
theorem ghost_run_errors_le (tickOf : String → ℚ) (sp : ℚ) (snapshot : List Order) :
    ∀ (ps : List Position) (a : SyncResult × SyncState),
      a.1.errors ≤ (ps.foldl (ghost_step tickOf sp snapshot) a).1.errors := by
  intro ps
  induction ps with
  | nil => intro a; simp
  | cons p ps ih =>
    intro a
    rw [List.foldl_cons]
    exact le_trans (ghost_step_errors_le tickOf sp snapshot a p) (ih _)

/-- One error-free repair step on a well-formed state leaves the state
well-formed, does not disturb other symbols' stop slices, and leaves its
own position protected by exactly one stop whose quantity matches within
tolerance. -/
theorem ghost_step_spec (tickOf : String → ℚ) (sp : ℚ) (snapshot : List Order)
    (n₀ : ℕ) (hsf : ∀ o ∈ snapshot, o.id < n₀)
    (hsn : (snapshot.map Order.id).Nodup) (p : Position)
    (a : SyncResult × SyncState) (hinv : SyncInv snapshot n₀ a.2)
    (hslice_p : matching_stops p a.2.orders = matching_stops p snapshot)
    (hdup_p : (matching_stops p snapshot).length ≤ 1)
    (herr : (ghost_step tickOf sp snapshot a p).1.errors = a.1.errors) :
    SyncInv snapshot n₀ (ghost_step tickOf sp snapshot a p).2 ∧
    (∀ q : Position, p.symbol ≠ q.symbol →
      matching_stops q (ghost_step tickOf sp snapshot a p).2.orders
        = matching_stops q a.2.orders) ∧
    (∃ o, matching_stops p (ghost_step tickOf sp snapshot a p).2.orders = [o] ∧
      |o.amount - get_position_qty p| ≤ QTY_MISMATCH_TOLERANCE) := by
  cases hfind : find_stop_loss_for_position p snapshot with
  | none =>
    by_cases hp0 : p.entryPrice = 0
    · exfalso
      have : (ghost_step tickOf sp snapshot a p).1.errors = a.1.errors + 1 := by
        simp [ghost_step, hfind, fix_missing_stop_loss, hp0]
      omega
    · have hst2 : (ghost_step tickOf sp snapshot a p).2 =
          ⟨a.2.orders ++ [new_stop_order tickOf sp p a.2.next_id],
            a.2.next_id + 1⟩ := by
        simp [ghost_step, hfind, fix_missing_stop_loss, hp0]
      have hsnap_nil : matching_stops p snapshot = [] :=
        filter_eq_nil_of_find?_none _ _ hfind
      refine ⟨?_, ?_, ?_⟩
      · rw [hst2]
        exact SyncInv_append snapshot n₀ a.2 _ hinv rfl
      · intro q hne
        rw [hst2]
        exact matching_stops_append_other q a.2.orders _ hne
      · refine ⟨new_stop_order tickOf sp p a.2.next_id, ?_, ?_⟩
        · rw [hst2]
          have := matching_stops_append_match p a.2.orders
            (new_stop_order tickOf sp p a.2.next_id)
            (sl_matches_new_stop_order tickOf sp p a.2.next_id)
          rw [this, hslice_p, hsnap_nil]
          rfl
        · show |(new_stop_order tickOf sp p a.2.next_id).amount - get_position_qty p|
            ≤ QTY_MISMATCH_TOLERANCE
          rw [show (new_stop_order tickOf sp p a.2.next_id).amount
            = get_position_qty p from rfl]
          rw [sub_self, abs_zero]
          norm_num [QTY_MISMATCH_TOLERANCE]
  | some slo =>
    have hslo_mem : slo ∈ snapshot := List.mem_of_find?_eq_some hfind
    have hslo_m : sl_matches p slo = true := List.find?_some hfind
    have hslo_sym : slo.symbol = p.symbol := sl_matches_symbol _ _ hslo_m
    have hsnap_slice : matching_stops p snapshot = [slo] :=
      filter_eq_singleton_of_find? _ _ _ hfind hdup_p
    by_cases hmm : (check_sl_qty_mismatch (get_position_qty p) slo.amount).1 = true
    · by_cases hp0 : p.entryPrice = 0
      · exfalso
        have : (ghost_step tickOf sp snapshot a p).1.errors = a.1.errors + 1 := by
          simp [ghost_step, hfind, hmm, fix_qty_mismatch, fix_missing_stop_loss,
            cancel_order, hp0]
        omega
      · have hst2 : (ghost_step tickOf sp snapshot a p).2 =
            ⟨(a.2.orders.eraseP (fun o => decide (o.id = slo.id)))
              ++ [new_stop_order tickOf sp p a.2.next_id], a.2.next_id + 1⟩ := by
          simp [ghost_step, hfind, hmm, fix_qty_mismatch, fix_missing_stop_loss,
            cancel_order, hp0]
        have hg_eq : ∀ x ∈ a.2.orders,
            (fun o => decide (o.id = slo.id)) x = true → x = slo := by
          intro x hx hxid
          simp only [decide_eq_true_eq] at hxid
          have hxlt : x.id < n₀ := by rw [hxid]; exact hsf slo hslo_mem
          have hxsnap : x ∈ snapshot := hinv.2.2.1 x hx hxlt
          exact order_id_injective snapshot hsn x hxsnap slo hslo_mem hxid
        refine ⟨?_, ?_, ?_⟩
        · rw [hst2]
          exact SyncInv_append snapshot n₀ (cancel_order slo.id a.2) _
            (SyncInv_cancel snapshot n₀ a.2 slo.id hinv) rfl
        · intro q hne
          rw [hst2]
          have h1 : matching_stops q
              ((a.2.orders.eraseP (fun o => decide (o.id = slo.id)))
                ++ [new_stop_order tickOf sp p a.2.next_id])
              = matching_stops q (a.2.orders.eraseP (fun o => decide (o.id = slo.id))) :=
            matching_stops_append_other q _ _ hne
          have h2 : matching_stops q (a.2.orders.eraseP (fun o => decide (o.id = slo.id)))
              = matching_stops q a.2.orders :=
            filter_eraseP_of_none (sl_matches q) _ a.2.orders (by
              intro x hx hxg
              rw [hg_eq x hx hxg]
              exact sl_matches_of_ne_symbol q slo (by rw [hslo_sym]; exact hne))
          exact h1.trans h2
        · refine ⟨new_stop_order tickOf sp p a.2.next_id, ?_, ?_⟩
          · rw [hst2]
            have h1 := matching_stops_append_match p
              (a.2.orders.eraseP (fun o => decide (o.id = slo.id)))
              (new_stop_order tickOf sp p a.2.next_id)
              (sl_matches_new_stop_order tickOf sp p a.2.next_id)
            have h2 : matching_stops p
                (a.2.orders.eraseP (fun o => decide (o.id = slo.id))) = [] :=
              filter_eraseP_of_unique (sl_matches p) _ slo a.2.orders
                (hslice_p.trans hsnap_slice) hg_eq (by simp)
            rw [h1, h2]
            rfl
          · show |(new_stop_order tickOf sp p a.2.next_id).amount - get_position_qty p|
              ≤ QTY_MISMATCH_TOLERANCE
            rw [show (new_stop_order tickOf sp p a.2.next_id).amount
              = get_position_qty p from rfl]
            rw [sub_self, abs_zero]
            norm_num [QTY_MISMATCH_TOLERANCE]
    · have hst2 : (ghost_step tickOf sp snapshot a p).2 = a.2 := by
        simp [ghost_step, hfind, hmm]
      have hdiff : |slo.amount - get_position_qty p| ≤ QTY_MISMATCH_TOLERANCE := by
        simp only [check_sl_qty_mismatch, decide_eq_true_eq] at hmm
        rw [abs_sub_comm]
        exact le_of_not_lt hmm
      refine ⟨hst2 ▸ hinv, fun q _ => by rw [hst2], ⟨slo, ?_, hdiff⟩⟩
      rw [hst2]
      exact hslice_p.trans hsnap_slice

/-- Master invariant of the reconciliation pass: starting from a
well-formed state whose stop slices agree with the snapshot, an
error-free pass leaves the state well-formed, leaves foreign symbols'
slices untouched, and leaves every processed position with exactly one
matching stop within tolerance. -/
theorem ghost_run_spec (tickOf : String → ℚ) (sp : ℚ) (snapshot : List Order)
    (n₀ : ℕ) (hsf : ∀ o ∈ snapshot, o.id < n₀)
    (hsn : (snapshot.map Order.id).Nodup) :
    ∀ (ps : List Position) (a : SyncResult × SyncState),
      SyncInv snapshot n₀ a.2 →
      (∀ p ∈ ps, matching_stops p a.2.orders = matching_stops p snapshot) →
      ps.Pairwise (fun x y => x.symbol ≠ y.symbol) →
      (∀ p ∈ ps, (matching_stops p snapshot).length ≤ 1) →
      (ps.foldl (ghost_step tickOf sp snapshot) a).1.errors = a.1.errors →
      SyncInv snapshot n₀ (ps.foldl (ghost_step tickOf sp snapshot) a).2 ∧
      (∀ p' : Position, (∀ q ∈ ps, q.symbol ≠ p'.symbol) →
        matching_stops p' (ps.foldl (ghost_step tickOf sp snapshot) a).2.orders
          = matching_stops p' a.2.orders) ∧
      (∀ p ∈ ps, ∃ o,
        matching_stops p (ps.foldl (ghost_step tickOf sp snapshot) a).2.orders = [o] ∧
        |o.amount - get_position_qty p| ≤ QTY_MISMATCH_TOLERANCE) := by
  intro ps
  induction ps with
  | nil =>
    intro a hinv _ _ _ _
    exact ⟨hinv, fun p' _ => rfl, by simp⟩
  | cons p ps ih =>
    intro a hinv hslice hpw hdup herr
    rw [List.foldl_cons] at herr ⊢
    have hstep_le := ghost_step_errors_le tickOf sp snapshot a p
    have hrun_le := ghost_run_errors_le tickOf sp snapshot ps
      (ghost_step tickOf sp snapshot a p)
    have hb_err : (ghost_step tickOf sp snapshot a p).1.errors = a.1.errors :=
      le_antisymm (herr ▸ hrun_le) hstep_le
    have hrun_err : (ps.foldl (ghost_step tickOf sp snapshot)
        (ghost_step tickOf sp snapshot a p)).1.errors
        = (ghost_step tickOf sp snapshot a p).1.errors := by
      rw [hb_err, herr]
    obtain ⟨hpw_head, hpw_tail⟩ := List.pairwise_cons.mp hpw
    obtain ⟨hinv', hkeep, op, hop, hopd⟩ :=
      ghost_step_spec tickOf sp snapshot n₀ hsf hsn p a hinv
        (hslice p (List.mem_cons_self p ps)) (hdup p (List.mem_cons_self p ps)) hb_err
    obtain ⟨hinv'', hframe'', hps''⟩ :=
      ih (ghost_step tickOf sp snapshot a p) hinv'
        (fun q hq => (hkeep q (hpw_head q hq)).trans
          (hslice q (List.mem_cons_of_mem p hq)))
        hpw_tail (fun q hq => hdup q (List.mem_cons_of_mem p hq)) hrun_err
    refine ⟨hinv'', ?_, ?_⟩
    · intro p' hp'
      rw [hframe'' p' (fun q hq => hp' q (List.mem_cons_of_mem p hq))]
      exact hkeep p' (hp' p (List.mem_cons_self p ps))
    · intro q hq
      rcases List.mem_cons.mp hq with rfl | hq
      · refine ⟨op, ?_, hopd⟩
        rw [hframe'' q (fun q' hq' => (hpw_head q' hq').symm)]
        exact hop
      · exact hps'' q hq

/-! ### Claim C3 -/

/-- C3 counterexample: a snapshot with one LONG position of 0.5 BTC/USDT
and two open sell stops of 0.5 each.  The pass only examines the first
matching stop (which matches in quantity), reports `errors = 0`, and
leaves both stops open — the position does not have exactly one matching
stop order after the pass. -/
theorem ghost_sync_duplicate_stops :
    (ghost_synchronizer (fun _ => 1/10) 2 [⟨"BTC/USDT", 1/2, "long", 50000⟩]
      [⟨1, "BTC/USDT", "STOP_MARKET", "sell", 1/2, 49000⟩,
       ⟨2, "BTC/USDT", "STOP_MARKET", "sell", 1/2, 48990⟩] 3).1.errors = 0 ∧
    (matching_stops ⟨"BTC/USDT", 1/2, "long", 50000⟩
      (ghost_synchronizer (fun _ => 1/10) 2 [⟨"BTC/USDT", 1/2, "long", 50000⟩]
        [⟨1, "BTC/USDT", "STOP_MARKET", "sell", 1/2, 49000⟩,
         ⟨2, "BTC/USDT", "STOP_MARKET", "sell", 1/2, 48990⟩] 3).2.orders).length
      = 2 := by
  constructor <;>
    norm_num [ghost_synchronizer, ghost_step, find_stop_loss_for_position,
      matching_stops, sl_matches, is_stop_order, expected_sl_side, get_position_side,
      get_position_qty, check_sl_qty_mismatch, QTY_MISMATCH_TOLERANCE,
      List.find?, List.filter,
      show |(1:ℚ)/2| = 1/2 from abs_of_pos (by norm_num), sub_self, abs_zero]

/-- C3 amended: over a well-formed snapshot — order ids pairwise distinct
and below the exchange's fresh-id supply, at most one open stop order per
position's symbol and protective side, and one position per symbol —
a `ghost_synchronizer` pass that reports `errors = 0` leaves every
position (in particular every one with nonzero quantity) with exactly one
open stop order whose quantity differs from the position quantity by at
most `1e-5`; and on the spec's scenario — one position BTC/USDT qty 0.5
LONG, zero open stop orders — the pass submits exactly one new stop order
sized 0.5 and reports `missing_sl_fixed = 1`.  Without the at-most-one
hypothesis the property fails (see the counterexample): duplicate stops
are never cleaned up. -/
theorem ghost_synchronizer_protects (tickOf : String → ℚ) (sp : ℚ)
    (positions : List Position) (orders : List Order) (next_id : ℕ)
    (h_fresh : ∀ o ∈ orders, o.id < next_id)
    (h_ids : (orders.map Order.id).Nodup)
    (h_dup : ∀ p ∈ positions, (matching_stops p orders).length ≤ 1)
    (h_sym : positions.Pairwise (fun x y => x.symbol ≠ y.symbol))
    (h_err : (ghost_synchronizer tickOf sp positions orders next_id).1.errors = 0) :
    (∀ p ∈ positions, ∃ o,
      matching_stops p
        (ghost_synchronizer tickOf sp positions orders next_id).2.orders = [o] ∧
      |o.amount - get_position_qty p| ≤ QTY_MISMATCH_TOLERANCE) ∧
    (ghost_synchronizer (fun _ => 1/10) 2
      [⟨"BTC/USDT", 1/2, "long", 50000⟩] [] 1).1.missing_sl_fixed = 1 ∧
    (ghost_synchronizer (fun _ => 1/10) 2
      [⟨"BTC/USDT", 1/2, "long", 50000⟩] [] 1).2.orders
      = [⟨1, "BTC/USDT", "STOP_MARKET", "sell", 1/2, 49000⟩] := by
  refine ⟨?_, ?_, ?_⟩
  · have herr0 : (positions.foldl (ghost_step tickOf sp orders)
        (⟨0, 0, 0, 0, false⟩, ⟨orders, next_id⟩)).1.errors = 0 := by
      simpa [ghost_synchronizer] using h_err
    have hspec := ghost_run_spec tickOf sp orders next_id h_fresh h_ids positions
      (⟨0, 0, 0, 0, false⟩, ⟨orders, next_id⟩)
      ⟨h_fresh, h_ids, fun o ho _ => ho, le_refl next_id⟩
      (fun p _ => rfl) h_sym h_dup herr0
    intro p hp
    obtain ⟨o, ho, hod⟩ := hspec.2.2 p hp
    refine ⟨o, ?_, hod⟩
    simpa [ghost_synchronizer] using ho
  · norm_num [ghost_synchronizer, ghost_step, find_stop_loss_for_position,
      fix_missing_stop_loss, List.find?]
  · norm_num [ghost_synchronizer, ghost_step, find_stop_loss_for_position,
      fix_missing_stop_loss, List.find?, new_stop_order, get_position_side,
      expected_sl_side, get_position_qty, floorTick]

/-- Witness for C3's amended theorem at the spec's scenario snapshot. -/
theorem ghost_synchronizer_protects_witness :
    ∃ o, matching_stops ⟨"BTC/USDT", 1/2, "long", 50000⟩
        (ghost_synchronizer (fun _ => 1/10) 2
          [⟨"BTC/USDT", 1/2, "long", 50000⟩] [] 1).2.orders = [o] ∧
      |o.amount - get_position_qty ⟨"BTC/USDT", 1/2, "long", 50000⟩|
        ≤ QTY_MISMATCH_TOLERANCE := by
  refine (ghost_synchronizer_protects (fun _ => 1/10) 2
    [⟨"BTC/USDT", 1/2, "long", 50000⟩] [] 1
    (by simp) (by simp) (by simp [matching_stops]) (by simp) ?_).1
    ⟨"BTC/USDT", 1/2, "long", 50000⟩ (by simp)
  norm_num [ghost_synchronizer, ghost_step, find_stop_loss_for_position,
    fix_missing_stop_loss, List.find?]

end BotTrace
